import Mathlib

/-!
# genshijin-bot: the word filter and the webhook handler of `main.go`

A shallow embedding of `src/main.go`.  Go strings are Lean strings, Go slices
are Lean lists, `log.Fatal` (which terminates the process) is an explicit
outcome, and the three remote services are functions supplied from outside.
-/

namespace GenshijinBot

/-! ## Data model (main.go:22-47) -/

/-- One element of `NlpResponse.Result[i].Tokens` (main.go:40-43). -/
structure Token where
  Kana : String
  Pos : String
deriving DecidableEq

/-- One element of `NlpResponse.Result` (main.go:39-44). -/
structure ResultGroup where
  Tokens : List Token
deriving DecidableEq

/-- The struct `NlpResponse` (main.go:38-47). -/
structure NlpResponse where
  Result : List ResultGroup
  Status : String
  Message : String
deriving DecidableEq

/-- The struct `AuthResponse` (main.go:23-29). -/
structure AuthResponse where
  AccessToken : String
  TokenType : String
  ExpiresIn : String
  Scope : String
  IssuedAt : String
deriving DecidableEq

/-! ## The word filter (main.go:121-129) -/

/-- The function `strings.Join` of the Go standard library: the empty string
for no element, the element itself for one, and otherwise the first element
followed by separator and element for each further one. -/
def Join : List String → String → String
  | [], _ => ""
  | [e], _ => e
  | e :: rest, sep => rest.foldl (fun b s => b ++ sep ++ s) e

/-- The condition of the `if` at main.go:124. -/
def keepToken (token : Token) : Bool :=
  token.Pos != "格助詞" && token.Pos != "連用助詞" && token.Pos != "引用助詞"
    && token.Pos != "終助詞" && token.Pos != "判定詞"

/-- The two nested loops at main.go:121-128: `parsedWords` starts as the nil
slice and receives `token.Kana` by `append` for each token passing the test. -/
def collectParsedWords (data : NlpResponse) : List String :=
  data.Result.foldl
    (fun parsedWords results =>
      results.Tokens.foldl
        (fun parsedWords token =>
          if keepToken token then parsedWords ++ [token.Kana] else parsedWords)
        parsedWords)
    []

/-- The tail of `getParsedWords` (main.go:121-129): the string it returns for
the decoded response `data`. -/
def getParsedWordsFilter (data : NlpResponse) : String :=
  Join (collectParsedWords data) ".."

/-! ## The remote services and the handler (main.go:49-162) -/

/-- What `client.Do` hands back on success, as far as main.go reads it: the
status code (which main.go never consults) and the outcome of decoding the
body as JSON into the target struct, `none` when the decoder reports an error. -/
structure Response (β : Type) where
  StatusCode : Nat
  Body : Option β

/-- The remote services.  Each is asked as part of handling the event at
position `i` of the batch, with the arguments the code sends (client id and
secret; sentence and bearer token), so that the answers may differ from one
event to the next; `Except.error` is a transport error of `client.Do`. -/
structure Services where
  tokenEndpoint : Nat → String → String → Except String (Response AuthResponse)
  parseEndpoint : Nat → String → String → Except String (Response NlpResponse)

/-- The outcome of `bot.ReplyMessage(replyToken, text).Do()` for the event at
position `i`: `some err` when it fails. -/
abbrev ReplyService := Nat → String → String → Option String

/-- An outbound call attempted by the handler. -/
inductive Call where
  | tokenFetch (clientID clientSecret : String)
  | parseRequest (sentence token : String)
  | reply (replyToken text : String)
deriving DecidableEq

/-- How a function ends: it returns a value, or `log.Fatal` ends the process. -/
inductive Outcome (α : Type) where
  | ret (a : α)
  | fatal
deriving DecidableEq

/-- The function `getAccessToken` (main.go:131-162).  The error of
`json.Marshal` is overwritten unread and `http.NewRequest` with a literal
method and URL cannot fail, so the request is always sent (main.go:151); a
transport error is fatal (main.go:152-154), a decoding error is fatal
(main.go:158-160), and otherwise the decoded `AccessToken` is returned
(main.go:161).  `resp.StatusCode` is not read. -/
def getAccessToken (w : Services) (i : Nat) (clientID clientSecret : String)
    (calls : List Call) : List Call × Outcome String :=
  let calls := calls ++ [Call.tokenFetch clientID clientSecret]
  match w.tokenEndpoint i clientID clientSecret with
  | .error _ => (calls, .fatal)
  | .ok resp =>
    match resp.Body with
    | none => (calls, .fatal)
    | some authResponse => (calls, .ret authResponse.AccessToken)

/-- The function `getParsedWords` (main.go:84-130).  As in `getAccessToken`
the request is always built (the error of `json.Marshal` is overwritten unread
and `http.NewRequest` with a literal method and URL cannot fail); the two
environment variables are read, the token is fetched (main.go:103), the parse
request is sent with it (main.go:108), a transport error or an undecodable
body is fatal (main.go:109-111, 117-119), and the decoded response is filtered
(main.go:121-129).  `resp.StatusCode` is not read. -/
def getParsedWords (env : String → String) (w : Services) (i : Nat) (words : String)
    (calls : List Call) : List Call × Outcome String :=
  let clientID := env "COTOHA_CLIENT_ID"
  let clientSecret := env "COTOHA_CLIENT_SERCRET"
  match getAccessToken w i clientID clientSecret calls with
  | (calls, .fatal) => (calls, .fatal)
  | (calls, .ret token) =>
    let calls := calls ++ [Call.parseRequest words token]
    match w.parseEndpoint i words token with
    | .error _ => (calls, .fatal)
    | .ok resp =>
      match resp.Body with
      | none => (calls, .fatal)
      | some data => (calls, .ret (getParsedWordsFilter data))

/-- The implementations of the interface `linebot.Message`: a
`*linebot.TextMessage` with its text, or any other one (image, sticker, ...). -/
inductive Message where
  | TextMessage (Text : String)
  | other
deriving DecidableEq

/-- The fields of `linebot.Event` that main.go reads; `Message` is `none` for
the nil interface value of an event that carries no message. -/
structure Event where
  Type_ : String
  ReplyToken : String
  Message : Option Message
deriving DecidableEq

/-- The constant `linebot.EventTypeMessage`. -/
def EventTypeMessage : String := "message"

/-- The error of `bot.ParseRequest`. -/
inductive ParseRequestError where
  | ErrInvalidSignature
  | other (msg : String)
deriving DecidableEq

/-- The loop at main.go:67-77 over the events from position `i` of the batch
on.  `calls` are the outbound calls attempted so far and `printed` what
`log.Print` has written.  A failed reply is printed and the loop goes on. -/
def handleEvents (env : String → String) (w : Services) (reply : ReplyService) :
    Nat → List Event → List Call → List String → List Call × List String × Outcome Unit
  | _, [], calls, printed => (calls, printed, .ret ())
  | i, event :: events, calls, printed =>
    if event.Type_ = EventTypeMessage then
      match event.Message with
      | some (.TextMessage text) =>
        match getParsedWords env w i text calls with
        | (calls, .fatal) => (calls, printed, .fatal)
        | (calls, .ret parsedMessage) =>
          let calls := calls ++ [Call.reply event.ReplyToken parsedMessage]
          match reply i event.ReplyToken parsedMessage with
          | some err => handleEvents env w reply (i + 1) events calls (printed ++ [err])
          | none => handleEvents env w reply (i + 1) events calls printed
      | _ => handleEvents env w reply (i + 1) events calls printed
    else handleEvents env w reply (i + 1) events calls printed

/-- What one run of the handler leaves behind: the outbound calls it attempted,
what it printed, and either the status of the response or the end of the
process. -/
structure HandlerResult where
  calls : List Call
  printed : List String
  outcome : Outcome Nat
deriving DecidableEq

/-- The handler of `/callback` (main.go:57-78), given what `bot.ParseRequest`
returned.  `WriteHeader` is called only on the two error paths; when the
handler returns without it, `net/http` answers with status 200. -/
def callback (env : String → String) (w : Services) (reply : ReplyService)
    (parsed : Except ParseRequestError (List Event)) : HandlerResult :=
  match parsed with
  | .error err =>
    if err = ParseRequestError.ErrInvalidSignature then ⟨[], [], .ret 400⟩
    else ⟨[], [], .ret 500⟩
  | .ok events =>
    match handleEvents env w reply 0 events [] [] with
    | (calls, printed, .fatal) => ⟨calls, printed, .fatal⟩
    | (calls, printed, .ret ()) => ⟨calls, printed, .ret 200⟩

/-! ## Reference notions used to state the properties -/

/-- The five excluded part-of-speech tags, as literal strings. -/
def excludedPos : List String :=
  ["格助詞", "連用助詞", "引用助詞", "終助詞", "判定詞"]

/-- All tokens of a parse result, group by group and token by token. -/
def allTokens (data : NlpResponse) : List Token :=
  data.Result.flatMap (fun g => g.Tokens)

/-- The tokens that survive: those whose tag is not an excluded one. -/
def survivors (data : NlpResponse) : List Token :=
  (allTokens data).filter (fun t => decide (t.Pos ∉ excludedPos))

/-- The readings of the surviving tokens, in order. -/
def survivingReadings (data : NlpResponse) : List String :=
  (survivors data).map (fun t => t.Kana)

/-- The number of non-overlapping occurrences of ".." counted from the left,
as `strings.Count(s, "..")` counts them.  The byte '.' occurs in no multi-byte
UTF-8 sequence, so counting on characters and on bytes agree. -/
def countSep : List Char → Nat
  | [] => 0
  | [_] => 0
  | c :: d :: rest =>
    if c = '.' ∧ d = '.' then countSep rest + 1 else countSep (d :: rest)

/-- The number of positions at which ".." occurs, overlaps included. -/
def countSepPositions : List Char → Nat
  | [] => 0
  | [_] => 0
  | c :: d :: rest =>
    (if c = '.' ∧ d = '.' then 1 else 0) + countSepPositions (d :: rest)

/-- Puts a character in front of the first piece. -/
def consHead (c : Char) : List (List Char) → List (List Char)
  | [] => [[c]]
  | piece :: pieces => (c :: piece) :: pieces

/-- The pieces between the non-overlapping occurrences of ".." found from the
left, as `strings.Split(s, "..")` cuts them. -/
def splitSep : List Char → List (List Char)
  | [] => [[]]
  | [c] => [[c]]
  | c :: d :: rest =>
    if c = '.' ∧ d = '.' then [] :: splitSep rest else consHead c (splitSep (d :: rest))

/-- Splitting a string on the separator "..". -/
def Split (s : String) : List String := (splitSep s.data).map String.mk

/-- The token fetch and the parse request made for the text of the event at
position `i` both succeed: no transport error, and bodies that decode to
`auth i` and `data i`. -/
def Served (env : String → String) (w : Services) (auth : Nat → AuthResponse)
    (data : Nat → NlpResponse) (i : Nat) (text : String) : Prop :=
  (∃ s, w.tokenEndpoint i (env "COTOHA_CLIENT_ID") (env "COTOHA_CLIENT_SERCRET")
      = .ok ⟨s, some (auth i)⟩)
    ∧ ∃ s, w.parseEndpoint i text (auth i).AccessToken = .ok ⟨s, some (data i)⟩

/-- Every token fetch and parse request that the batch gives rise to
succeeds: `Served` holds at each event that is a text message. -/
def UpstreamServes (env : String → String) (w : Services) (auth : Nat → AuthResponse)
    (data : Nat → NlpResponse) (events : List Event) : Prop :=
  ∀ i event text, events[i]? = some event → event.Type_ = EventTypeMessage →
    event.Message = some (.TextMessage text) → Served env w auth data i text

/-- The calls the event at position `i` is expected to cause: token fetch,
parse request and reply for a message event carrying a text message, and no
call for any other event. -/
def expectedCalls (env : String → String) (auth : Nat → AuthResponse)
    (data : Nat → NlpResponse) (i : Nat) (event : Event) : List Call :=
  if event.Type_ = EventTypeMessage then
    match event.Message with
    | some (.TextMessage text) =>
      [Call.tokenFetch (env "COTOHA_CLIENT_ID") (env "COTOHA_CLIENT_SERCRET"),
        Call.parseRequest text (auth i).AccessToken,
        Call.reply event.ReplyToken (getParsedWordsFilter (data i))]
    | _ => []
  else []

/-- The reply tokens of the replies among the calls, in order. -/
def replyTokens (calls : List Call) : List String :=
  calls.filterMap (fun c => match c with
    | Call.reply replyToken _ => some replyToken
    | _ => none)

/-- Whether the event is a message event carrying a text message. -/
def isTextMessageEvent (event : Event) : Bool :=
  decide (event.Type_ = EventTypeMessage) &&
    (match event.Message with
      | some (.TextMessage _) => true
      | _ => false)

/-- The reply token and the text of the replies among the calls, in order. -/
def replyCalls (calls : List Call) : List (String × String) :=
  calls.filterMap (fun c => match c with
    | Call.reply replyToken text => some (replyToken, text)
    | _ => none)

/-- The positions in the batch of the message events carrying a text message,
in order. -/
def textPositions (events : List Event) : List Nat :=
  (events.enum.filter (fun p => isTextMessageEvent p.2)).map (fun p => p.1)

/-- The errors of the failed ones among the replies attempted, in order: the
replies among `calls` are paired with the positions of the text-message events
they were made for, and each pair is looked up in the reply outcomes. -/
def failedReplies (reply : ReplyService) (events : List Event) (calls : List Call) :
    List String :=
  ((textPositions events).zip (replyCalls calls)).filterMap
    (fun p => reply p.1 p.2.1 p.2.2)

/-- What the event at position `i` is expected to add to the log when its
token fetch and parse request succeed: the error of its reply if the event is
a message event carrying a text message and the reply fails, and nothing
otherwise. -/
def expectedPrinted (reply : ReplyService) (data : Nat → NlpResponse) (i : Nat)
    (event : Event) : List String :=
  if isTextMessageEvent event then
    (reply i event.ReplyToken (getParsedWordsFilter (data i))).toList
  else []

/-! ## Concrete inputs -/

/-- The parse result of end-to-end scenario 1. -/
def nekoParse : NlpResponse :=
  ⟨[⟨[⟨"ネコ", "名詞"⟩, ⟨"ガ", "格助詞"⟩, ⟨"ナク", "動詞"⟩]⟩], "0", "OK"⟩

/-- A parse result whose only token has the reading "..". -/
def dotReading : NlpResponse :=
  ⟨[⟨[⟨"..", "句点"⟩]⟩], "0", "OK"⟩

/-- A parse result whose last surviving token has the empty reading. -/
def emptyReading : NlpResponse :=
  ⟨[⟨[⟨"ネコ", "名詞"⟩, ⟨"", "空白"⟩]⟩], "0", "OK"⟩

/-- A parse result with an empty reading between two others. -/
def emptyBetween : NlpResponse :=
  ⟨[⟨[⟨"ネコ", "名詞"⟩]⟩, ⟨[⟨"", "空白"⟩, ⟨"ガ", "格助詞"⟩, ⟨"ナク", "動詞"⟩]⟩], "0", "OK"⟩

/-- An environment with both credentials set. -/
def exampleEnv : String → String := fun key =>
  if key = "COTOHA_CLIENT_ID" then "id"
  else if key = "COTOHA_CLIENT_SERCRET" then "secret"
  else ""

/-- The decoded body of a token response carrying the token "tok". -/
def exampleAuth : AuthResponse := ⟨"tok", "bearer", "86399", "", "1700000000"⟩

/-- Both endpoints answer with decodable bodies. -/
def servicesUp : Services :=
  ⟨fun _ _ _ => .ok ⟨201, some exampleAuth⟩, fun _ _ _ => .ok ⟨200, some nekoParse⟩⟩

/-- The token endpoint cannot be reached. -/
def servicesTokenDown : Services :=
  ⟨fun _ _ _ => .error "connection refused", fun _ _ _ => .ok ⟨200, some nekoParse⟩⟩

/-- The parse endpoint answers with a body that is not JSON. -/
def servicesParseGarbled : Services :=
  ⟨fun _ _ _ => .ok ⟨201, some exampleAuth⟩, fun _ _ _ => .ok ⟨502, none⟩⟩

/-- The token endpoint refuses the credentials with status 401 and a JSON
object without an `access_token` member, which decodes to the zero
`AuthResponse`. -/
def servicesTokenDenied : Services :=
  ⟨fun _ _ _ => .ok ⟨401, some ⟨"", "", "", "", ""⟩⟩, fun _ _ _ => .ok ⟨200, some nekoParse⟩⟩

/-- Every reply is delivered. -/
def repliesDelivered : ReplyService := fun _ _ _ => none

/-- Every reply fails. -/
def repliesFail : ReplyService := fun _ _ _ => some "invalid reply token"

/-- The reply to the event at position 0 fails and every other is delivered. -/
def firstReplyFails : ReplyService := fun i _ _ =>
  if i = 0 then some "invalid reply token" else none

/-- A batch with one text message, one follow event and one image message. -/
def exampleBatch : List Event :=
  [⟨"message", "r1", some (.TextMessage "猫が鳴く")⟩, ⟨"follow", "r2", none⟩,
    ⟨"message", "r3", some .other⟩]

/-- A batch with two text messages. -/
def twoTexts : List Event :=
  [⟨"message", "r1", some (.TextMessage "猫が鳴く")⟩,
    ⟨"message", "r2", some (.TextMessage "犬が吠える")⟩]

/-! ## Lemmas on the filter -/

theorem keepToken_iff (t : Token) : keepToken t = true ↔ t.Pos ∉ excludedPos := by
  simp [keepToken, excludedPos, and_assoc]

theorem tokens_foldl_eq (ts : List Token) (acc : List String) :
    ts.foldl (fun parsedWords token =>
        if keepToken token then parsedWords ++ [token.Kana] else parsedWords) acc
      = acc ++ (ts.filter (fun t => decide (t.Pos ∉ excludedPos))).map (fun t => t.Kana) := by
  induction ts generalizing acc with
  | nil => simp
  | cons t ts ih =>
    rw [List.foldl_cons, ih]
    by_cases h : t.Pos ∈ excludedPos
    · have hk : keepToken t = false := by
        cases hkt : keepToken t with
        | false => rfl
        | true => exact absurd h ((keepToken_iff t).1 hkt)
      simp [hk, h]
    · have hk : keepToken t = true := (keepToken_iff t).2 h
      simp [hk, h]

theorem groups_foldl_eq (gs : List ResultGroup) (acc : List String) :
    gs.foldl
        (fun parsedWords results =>
          results.Tokens.foldl
            (fun parsedWords token =>
              if keepToken token then parsedWords ++ [token.Kana] else parsedWords)
            parsedWords)
        acc
      = acc ++ ((gs.flatMap (fun g => g.Tokens)).filter
          (fun t => decide (t.Pos ∉ excludedPos))).map (fun t => t.Kana) := by
  induction gs generalizing acc with
  | nil => simp
  | cons g gs ih =>
    rw [List.foldl_cons, ih, tokens_foldl_eq]
    simp [List.flatMap_cons, List.append_assoc]

theorem collectParsedWords_eq (data : NlpResponse) :
    collectParsedWords data = survivingReadings data := by
  unfold collectParsedWords survivingReadings survivors allTokens
  rw [groups_foldl_eq]
  simp

theorem intercalate_go_eq_foldl (sep : String) (rest : List String) (b : String) :
    String.intercalate.go b sep rest = rest.foldl (fun b s => b ++ sep ++ s) b := by
  induction rest generalizing b with
  | nil => rfl
  | cons s rest ih => simp [String.intercalate.go, ih]

theorem Join_cons (e : String) (rest : List String) (sep : String) :
    Join (e :: rest) sep = rest.foldl (fun b s => b ++ sep ++ s) e := by
  cases rest <;> rfl

theorem Join_eq_intercalate (l : List String) (sep : String) :
    Join l sep = String.intercalate sep l := by
  cases l with
  | nil => rfl
  | cons e rest => rw [Join_cons, String.intercalate, intercalate_go_eq_foldl]

theorem foldl_sep_data (sep : String) (rest : List String) (b : String) :
    (rest.foldl (fun b s => b ++ sep ++ s) b).data
      = b.data ++ rest.flatMap (fun s => sep.data ++ s.data) := by
  induction rest generalizing b with
  | nil => simp
  | cons s rest ih =>
    rw [List.foldl_cons, ih]
    simp [String.data_append, List.append_assoc]

theorem Join_cons_data (e : String) (rest : List String) (sep : String) :
    (Join (e :: rest) sep).data
      = e.data ++ rest.flatMap (fun s => sep.data ++ s.data) := by
  rw [Join_cons, foldl_sep_data]

/-! ## Lemmas on the separator -/

theorem splitSep_dotFree (r : List Char) (hr : '.' ∉ r) : splitSep r = [r] := by
  induction r with
  | nil => rfl
  | cons c r ih =>
    have hc : c ≠ '.' := fun h => hr (h ▸ List.mem_cons_self _ _)
    have hr2 : '.' ∉ r := fun h => hr (List.mem_cons_of_mem _ h)
    cases r with
    | nil => rfl
    | cons d r =>
      rw [splitSep, if_neg (fun h => hc h.1), ih hr2]
      rfl

theorem splitSep_append (r tail : List Char) (hr : '.' ∉ r) :
    splitSep (r ++ '.' :: '.' :: tail) = r :: splitSep tail := by
  induction r with
  | nil => simp [splitSep]
  | cons c r ih =>
    have hc : c ≠ '.' := fun h => hr (h ▸ List.mem_cons_self _ _)
    have hr2 : '.' ∉ r := fun h => hr (List.mem_cons_of_mem _ h)
    cases r with
    | nil =>
      simp only [List.cons_append, List.nil_append]
      rw [splitSep, if_neg (fun h => hc h.1)]
      simp [splitSep, consHead]
    | cons d r =>
      simp only [List.cons_append] at ih ⊢
      rw [splitSep, if_neg (fun h => hc h.1), ih hr2]
      rfl

theorem splitSep_joined (e : List Char) (rest : List (List Char))
    (he : '.' ∉ e) (hrest : ∀ r ∈ rest, '.' ∉ r) :
    splitSep (e ++ rest.flatMap (fun s => '.' :: '.' :: s)) = e :: rest := by
  induction rest generalizing e with
  | nil => simpa using splitSep_dotFree e he
  | cons s rest ih =>
    rw [List.flatMap_cons, List.cons_append, List.cons_append, splitSep_append _ _ he,
      ih s (hrest s (List.mem_cons_self _ _)) (fun r hr => hrest r (List.mem_cons_of_mem _ hr))]

theorem countSep_dotFree (r : List Char) (hr : '.' ∉ r) : countSep r = 0 := by
  induction r with
  | nil => rfl
  | cons c r ih =>
    have hc : c ≠ '.' := fun h => hr (h ▸ List.mem_cons_self _ _)
    have hr2 : '.' ∉ r := fun h => hr (List.mem_cons_of_mem _ h)
    cases r with
    | nil => rfl
    | cons d r => rw [countSep, if_neg (fun h => hc h.1), ih hr2]

theorem countSep_append (r tail : List Char) (hr : '.' ∉ r) :
    countSep (r ++ '.' :: '.' :: tail) = countSep tail + 1 := by
  induction r with
  | nil => simp [countSep]
  | cons c r ih =>
    have hc : c ≠ '.' := fun h => hr (h ▸ List.mem_cons_self _ _)
    have hr2 : '.' ∉ r := fun h => hr (List.mem_cons_of_mem _ h)
    cases r with
    | nil =>
      simp only [List.cons_append, List.nil_append]
      rw [countSep, if_neg (fun h => hc h.1)]
      simp [countSep]
    | cons d r =>
      simp only [List.cons_append] at ih ⊢
      rw [countSep, if_neg (fun h => hc h.1), ih hr2]

theorem countSep_joined (e : List Char) (rest : List (List Char))
    (he : '.' ∉ e) (hrest : ∀ r ∈ rest, '.' ∉ r) :
    countSep (e ++ rest.flatMap (fun s => '.' :: '.' :: s)) = rest.length := by
  induction rest generalizing e with
  | nil => simpa using countSep_dotFree e he
  | cons s rest ih =>
    rw [List.flatMap_cons, List.cons_append, List.cons_append, countSep_append _ _ he,
      ih s (hrest s (List.mem_cons_self _ _)) (fun r hr => hrest r (List.mem_cons_of_mem _ hr)),
      List.length_cons]

theorem countSepPositions_dotFree (r : List Char) (hr : '.' ∉ r) :
    countSepPositions r = 0 := by
  induction r with
  | nil => rfl
  | cons c r ih =>
    have hc : c ≠ '.' := fun h => hr (h ▸ List.mem_cons_self _ _)
    have hr2 : '.' ∉ r := fun h => hr (List.mem_cons_of_mem _ h)
    cases r with
    | nil => rfl
    | cons d r => rw [countSepPositions, if_neg (fun h => hc h.1), ih hr2]

theorem countSepPositions_dot_cons (tail : List Char) (ht : tail.head? ≠ some '.') :
    countSepPositions ('.' :: tail) = countSepPositions tail := by
  cases tail with
  | nil => rfl
  | cons d t =>
    have hd : d ≠ '.' := fun h => ht (by simp [h])
    rw [countSepPositions, if_neg (fun h => hd h.2), Nat.zero_add]

theorem countSepPositions_append (r tail : List Char) (hr : '.' ∉ r)
    (ht : tail.head? ≠ some '.') :
    countSepPositions (r ++ '.' :: '.' :: tail) = countSepPositions tail + 1 := by
  induction r with
  | nil =>
    rw [List.nil_append, countSepPositions, if_pos ⟨rfl, rfl⟩,
      countSepPositions_dot_cons tail ht, Nat.add_comm]
  | cons c r ih =>
    have hc : c ≠ '.' := fun h => hr (h ▸ List.mem_cons_self _ _)
    have hr2 : '.' ∉ r := fun h => hr (List.mem_cons_of_mem _ h)
    cases r with
    | nil =>
      simp only [List.cons_append, List.nil_append] at ih ⊢
      rw [countSepPositions, if_neg (fun h => hc h.1), Nat.zero_add, ih hr2]
    | cons d r =>
      simp only [List.cons_append] at ih ⊢
      rw [countSepPositions, if_neg (fun h => hc h.1), Nat.zero_add, ih hr2]

theorem head?_append_ne_dot (s tail : List Char) (hs : s ≠ []) (hdot : '.' ∉ s) :
    (s ++ tail).head? ≠ some '.' := by
  cases s with
  | nil => exact absurd rfl hs
  | cons c s =>
    intro h
    simp only [List.cons_append, List.head?_cons, Option.some.injEq] at h
    exact hdot (h ▸ List.mem_cons_self _ _)

theorem countSepPositions_joined (e : List Char) (rest : List (List Char))
    (he : '.' ∉ e) (hrest : ∀ r ∈ rest, r ≠ [] ∧ '.' ∉ r) :
    countSepPositions (e ++ rest.flatMap (fun s => '.' :: '.' :: s)) = rest.length := by
  induction rest generalizing e with
  | nil => simpa using countSepPositions_dotFree e he
  | cons s rest ih =>
    have hs := hrest s (List.mem_cons_self _ _)
    rw [List.flatMap_cons, List.cons_append, List.cons_append,
      countSepPositions_append _ _ he (head?_append_ne_dot s _ hs.1 hs.2),
      ih s hs.2 (fun r hr => hrest r (List.mem_cons_of_mem _ hr)), List.length_cons]

theorem not_starts_with_sep (e tail : List Char) (hne : e ≠ []) (he : '.' ∉ e) :
    ¬ (['.', '.'] <+: e ++ tail) := by
  cases e with
  | nil => exact absurd rfl hne
  | cons c e =>
    rintro ⟨t, ht⟩
    simp only [List.cons_append, List.cons.injEq] at ht
    exact he (ht.1 ▸ List.mem_cons_self _ _)

theorem not_ends_with_sep (front s : List Char) (hne : s ≠ []) (hs : '.' ∉ s) :
    ¬ (['.', '.'] <:+ front ++ s) := by
  rintro ⟨t, ht⟩
  have hlast := congrArg List.getLast? ht
  rw [List.getLast?_append_of_ne_nil _ hne] at hlast
  simp at hlast
  have hmem := List.mem_of_getLast?_eq_some hlast.symm
  exact hs hmem

theorem joined_ends_with_reading (e : List Char) (rest : List (List Char))
    (he : e ≠ [] ∧ '.' ∉ e) (hrest : ∀ r ∈ rest, r ≠ [] ∧ '.' ∉ r) :
    ∃ front s, e ++ rest.flatMap (fun s => '.' :: '.' :: s) = front ++ s
      ∧ s ≠ [] ∧ '.' ∉ s := by
  induction rest generalizing e with
  | nil => exact ⟨[], e, by simp, he.1, he.2⟩
  | cons r rest ih =>
    obtain ⟨front, s, hfs, hs⟩ :=
      ih r (hrest r (List.mem_cons_self _ _)) (fun x hx => hrest x (List.mem_cons_of_mem _ hx))
    refine ⟨e ++ '.' :: '.' :: front, s, ?_, hs⟩
    rw [List.flatMap_cons, List.cons_append, List.cons_append, hfs]
    simp

theorem data_ne_nil_of_ne_empty (r : String) (h : r ≠ "") : r.data ≠ [] := by
  intro hd
  apply h
  cases r with
  | mk cs =>
    simp only at hd
    subst hd
    rfl

theorem getParsedWordsFilter_data_nil (data : NlpResponse)
    (h : survivingReadings data = []) : (getParsedWordsFilter data).data = [] := by
  unfold getParsedWordsFilter
  rw [collectParsedWords_eq, h]
  rfl

theorem getParsedWordsFilter_data_cons (data : NlpResponse) (e : String)
    (rest : List String) (h : survivingReadings data = e :: rest) :
    (getParsedWordsFilter data).data
      = e.data ++ (rest.map String.data).flatMap (fun s => '.' :: '.' :: s) := by
  unfold getParsedWordsFilter
  rw [collectParsedWords_eq, h, Join_cons_data, List.flatMap_map]
  rfl

theorem servicesUp_serves (events : List Event) :
    UpstreamServes exampleEnv servicesUp (fun _ => exampleAuth) (fun _ => nekoParse) events :=
  fun _ _ _ _ _ _ => ⟨⟨201, rfl⟩, ⟨200, rfl⟩⟩

/-! ## Lemmas on the handler -/

theorem getParsedWords_served (env : String → String) (w : Services)
    (auth : Nat → AuthResponse) (data : Nat → NlpResponse) (i : Nat) (text : String)
    (calls : List Call) (h : Served env w auth data i text) :
    getParsedWords env w i text calls
      = (calls ++ [Call.tokenFetch (env "COTOHA_CLIENT_ID") (env "COTOHA_CLIENT_SERCRET"),
            Call.parseRequest text (auth i).AccessToken],
          .ret (getParsedWordsFilter (data i))) := by
  obtain ⟨⟨s₁, h₁⟩, ⟨s₂, h₂⟩⟩ := h
  simp [getParsedWords, getAccessToken, h₁, h₂]

theorem handleEvents_served (env : String → String) (w : Services) (reply : ReplyService)
    (auth : Nat → AuthResponse) (data : Nat → NlpResponse) (events : List Event) :
    ∀ (i : Nat) (calls : List Call) (printed : List String),
      (∀ j event text, events[j]? = some event → event.Type_ = EventTypeMessage →
        event.Message = some (.TextMessage text) → Served env w auth data (i + j) text) →
      (handleEvents env w reply i events calls printed).1
          = calls ++ (events.enumFrom i).flatMap
              (fun p => expectedCalls env auth data p.1 p.2)
        ∧ (handleEvents env w reply i events calls printed).2.2 = .ret () := by
  induction events with
  | nil => intro i calls printed _; simp [handleEvents]
  | cons event events ih =>
    intro i calls printed h
    have htail : ∀ j ev text, events[j]? = some ev → ev.Type_ = EventTypeMessage →
        ev.Message = some (.TextMessage text) → Served env w auth data (i + 1 + j) text := by
      intro j ev text hj ht hm
      have := h (j + 1) ev text (by simpa using hj) ht hm
      rwa [show i + (j + 1) = i + 1 + j by omega] at this
    by_cases hty : event.Type_ = EventTypeMessage
    · cases hmsg : event.Message with
      | none =>
        have hexp : expectedCalls env auth data i event = [] := by
          simp [expectedCalls, hmsg]
        have := ih (i + 1) calls printed htail
        simp only [handleEvents, hty, hmsg, if_true, List.enumFrom_cons, List.flatMap_cons, hexp]
        simpa using this
      | some m =>
        cases m with
        | other =>
          have hexp : expectedCalls env auth data i event = [] := by
            simp [expectedCalls, hmsg]
          have := ih (i + 1) calls printed htail
          simp only [handleEvents, hty, hmsg, if_true, List.enumFrom_cons, List.flatMap_cons,
            hexp]
          simpa using this
        | TextMessage text =>
          have hexp : expectedCalls env auth data i event
              = [Call.tokenFetch (env "COTOHA_CLIENT_ID") (env "COTOHA_CLIENT_SERCRET"),
                  Call.parseRequest text (auth i).AccessToken,
                  Call.reply event.ReplyToken (getParsedWordsFilter (data i))] := by
            simp [expectedCalls, hty, hmsg]
          have hs := h 0 event text (by simp) hty hmsg
          have hg := getParsedWords_served env w auth data i text calls hs
          cases hr : reply i event.ReplyToken (getParsedWordsFilter (data i)) with
          | none =>
            have := ih (i + 1)
              (calls ++ [Call.tokenFetch (env "COTOHA_CLIENT_ID") (env "COTOHA_CLIENT_SERCRET"),
                Call.parseRequest text (auth i).AccessToken]
                ++ [Call.reply event.ReplyToken (getParsedWordsFilter (data i))]) printed htail
            simp only [handleEvents, hty, hmsg, if_true, hg, hr, List.enumFrom_cons,
              List.flatMap_cons, hexp]
            simpa using this
          | some err =>
            have := ih (i + 1)
              (calls ++ [Call.tokenFetch (env "COTOHA_CLIENT_ID") (env "COTOHA_CLIENT_SERCRET"),
                Call.parseRequest text (auth i).AccessToken]
                ++ [Call.reply event.ReplyToken (getParsedWordsFilter (data i))])
              (printed ++ [err]) htail
            simp only [handleEvents, hty, hmsg, if_true, hg, hr, List.enumFrom_cons,
              List.flatMap_cons, hexp]
            simpa using this
    · have hexp : expectedCalls env auth data i event = [] := by
        simp [expectedCalls, hty]
      have := ih (i + 1) calls printed htail
      simp only [handleEvents, hty, if_false, List.enumFrom_cons, List.flatMap_cons, hexp]
      simpa using this

theorem replyTokens_expectedCalls (env : String → String) (auth : Nat → AuthResponse)
    (data : Nat → NlpResponse) (events : List Event) (i : Nat) :
    replyTokens ((events.enumFrom i).flatMap (fun p => expectedCalls env auth data p.1 p.2))
      = (events.filter isTextMessageEvent).map (fun event => event.ReplyToken) := by
  induction events generalizing i with
  | nil => rfl
  | cons event events ih =>
    have ih2 := ih (i + 1)
    unfold replyTokens at ih2 ⊢
    rw [List.enumFrom_cons, List.flatMap_cons, List.filterMap_append, ih2]
    by_cases hty : event.Type_ = EventTypeMessage
    · cases hmsg : event.Message with
      | none => simp [expectedCalls, isTextMessageEvent, hmsg]
      | some m =>
        cases m with
        | other => simp [expectedCalls, isTextMessageEvent, hmsg]
        | TextMessage text => simp [expectedCalls, isTextMessageEvent, hmsg, hty]
    · simp [expectedCalls, isTextMessageEvent, hty]

theorem handleEvents_reply_irrelevant (env : String → String) (w : Services)
    (r₁ r₂ : ReplyService) (events : List Event) :
    ∀ (i : Nat) (calls : List Call) (p₁ p₂ : List String),
      (handleEvents env w r₁ i events calls p₁).1 = (handleEvents env w r₂ i events calls p₂).1
        ∧ (handleEvents env w r₁ i events calls p₁).2.2
            = (handleEvents env w r₂ i events calls p₂).2.2 := by
  induction events with
  | nil => intro i calls p₁ p₂; simp [handleEvents]
  | cons event events ih =>
    intro i calls p₁ p₂
    by_cases hty : event.Type_ = EventTypeMessage
    · cases hmsg : event.Message with
      | none =>
        simp only [handleEvents, hty, hmsg, if_true]
        exact ih _ _ _ _
      | some m =>
        cases m with
        | other =>
          simp only [handleEvents, hty, hmsg, if_true]
          exact ih _ _ _ _
        | TextMessage text =>
          rcases hg : getParsedWords env w i text calls with ⟨calls2, out⟩
          cases out with
          | fatal => simp [handleEvents, hty, hmsg, hg]
          | ret parsedMessage =>
            simp only [handleEvents, hty, hmsg, if_true, hg]
            cases r₁ i event.ReplyToken parsedMessage <;>
              cases r₂ i event.ReplyToken parsedMessage <;> exact ih _ _ _ _
    · simp only [handleEvents, hty, if_false]
      exact ih _ _ _ _

theorem getParsedWords_calls (env : String → String) (w : Services) (i : Nat)
    (text : String) (calls : List Call) :
    ∃ extra, (getParsedWords env w i text calls).1 = calls ++ extra
      ∧ replyCalls extra = [] := by
  cases h₁ : w.tokenEndpoint i (env "COTOHA_CLIENT_ID") (env "COTOHA_CLIENT_SERCRET") with
  | error e =>
    exact ⟨[Call.tokenFetch (env "COTOHA_CLIENT_ID") (env "COTOHA_CLIENT_SERCRET")],
      by simp [getParsedWords, getAccessToken, h₁], rfl⟩
  | ok resp =>
    cases h₂ : resp.Body with
    | none =>
      exact ⟨[Call.tokenFetch (env "COTOHA_CLIENT_ID") (env "COTOHA_CLIENT_SERCRET")],
        by simp [getParsedWords, getAccessToken, h₁, h₂], rfl⟩
    | some auth =>
      refine ⟨[Call.tokenFetch (env "COTOHA_CLIENT_ID") (env "COTOHA_CLIENT_SERCRET"),
        Call.parseRequest text auth.AccessToken], ?_, rfl⟩
      cases h₃ : w.parseEndpoint i text auth.AccessToken with
      | error e => simp [getParsedWords, getAccessToken, h₁, h₂, h₃]
      | ok resp2 =>
        cases h₄ : resp2.Body with
        | none => simp [getParsedWords, getAccessToken, h₁, h₂, h₃, h₄]
        | some data => simp [getParsedWords, getAccessToken, h₁, h₂, h₃, h₄]

theorem replyCalls_append (xs ys : List Call) :
    replyCalls (xs ++ ys) = replyCalls xs ++ replyCalls ys := by
  unfold replyCalls
  exact List.filterMap_append _ _ _

theorem handleEvents_printed (env : String → String) (w : Services) (reply : ReplyService)
    (events : List Event) :
    ∀ (i : Nat) (calls : List Call) (printed : List String),
      ∃ new, (handleEvents env w reply i events calls printed).1 = calls ++ new
        ∧ (handleEvents env w reply i events calls printed).2.1
          = printed ++
            ((((events.enumFrom i).filter (fun p => isTextMessageEvent p.2)).map
                (fun p => p.1)).zip (replyCalls new)).filterMap
              (fun p => reply p.1 p.2.1 p.2.2) := by
  induction events with
  | nil => intro i calls printed; exact ⟨[], by simp [handleEvents], by simp [handleEvents]⟩
  | cons event events ih =>
    intro i calls printed
    by_cases hty : event.Type_ = EventTypeMessage
    · cases hmsg : event.Message with
      | none =>
        have hnt : isTextMessageEvent event = false := by simp [isTextMessageEvent, hmsg]
        obtain ⟨new, h1, h2⟩ := ih (i + 1) calls printed
        refine ⟨new, ?_, ?_⟩
        · simp only [handleEvents, hty, hmsg, if_true]; exact h1
        · simp only [handleEvents, hty, hmsg, if_true, List.enumFrom_cons]
          rw [List.filter_cons_of_neg (by simp [hnt])]
          exact h2
      | some m =>
        cases m with
        | other =>
          have hnt : isTextMessageEvent event = false := by simp [isTextMessageEvent, hmsg]
          obtain ⟨new, h1, h2⟩ := ih (i + 1) calls printed
          refine ⟨new, ?_, ?_⟩
          · simp only [handleEvents, hty, hmsg, if_true]; exact h1
          · simp only [handleEvents, hty, hmsg, if_true, List.enumFrom_cons]
            rw [List.filter_cons_of_neg (by simp [hnt])]
            exact h2
        | TextMessage text =>
          have hyt : isTextMessageEvent event = true := by
            simp [isTextMessageEvent, hmsg, hty]
          obtain ⟨extra, hx1, hx2⟩ := getParsedWords_calls env w i text calls
          rcases hg : getParsedWords env w i text calls with ⟨calls2, out⟩
          rw [hg] at hx1
          simp only at hx1
          subst hx1
          cases out with
          | fatal =>
            refine ⟨extra, ?_, ?_⟩
            · simp [handleEvents, hty, hmsg, hg]
            · simp [handleEvents, hty, hmsg, hg, hx2]
          | ret parsedMessage =>
            cases hr : reply i event.ReplyToken parsedMessage with
            | none =>
              obtain ⟨new, h1, h2⟩ := ih (i + 1)
                (calls ++ extra ++ [Call.reply event.ReplyToken parsedMessage]) printed
              refine ⟨extra ++ [Call.reply event.ReplyToken parsedMessage] ++ new, ?_, ?_⟩
              · simp only [handleEvents, hty, hmsg, if_true, hg, hr]
                rw [h1]
                simp [List.append_assoc]
              · simp only [handleEvents, hty, hmsg, if_true, hg, hr, List.enumFrom_cons]
                rw [h2, List.filter_cons_of_pos (by simp [hyt]), replyCalls_append,
                  replyCalls_append, hx2]
                simp [replyCalls, hr]
            | some err =>
              obtain ⟨new, h1, h2⟩ := ih (i + 1)
                (calls ++ extra ++ [Call.reply event.ReplyToken parsedMessage])
                (printed ++ [err])
              refine ⟨extra ++ [Call.reply event.ReplyToken parsedMessage] ++ new, ?_, ?_⟩
              · simp only [handleEvents, hty, hmsg, if_true, hg, hr]
                rw [h1]
                simp [List.append_assoc]
              · simp only [handleEvents, hty, hmsg, if_true, hg, hr, List.enumFrom_cons]
                rw [h2, List.filter_cons_of_pos (by simp [hyt]), replyCalls_append,
                  replyCalls_append, hx2]
                simp [replyCalls, hr]
    · have hnt : isTextMessageEvent event = false := by simp [isTextMessageEvent, hty]
      obtain ⟨new, h1, h2⟩ := ih (i + 1) calls printed
      refine ⟨new, ?_, ?_⟩
      · simp only [handleEvents, hty, if_false]; exact h1
      · simp only [handleEvents, hty, if_false, List.enumFrom_cons]
        rw [List.filter_cons_of_neg (by simp [hnt])]
        exact h2

theorem handleEvents_served_printed (env : String → String) (w : Services)
    (reply : ReplyService) (auth : Nat → AuthResponse) (data : Nat → NlpResponse)
    (events : List Event) :
    ∀ (i : Nat) (calls : List Call) (printed : List String),
      (∀ j event text, events[j]? = some event → event.Type_ = EventTypeMessage →
        event.Message = some (.TextMessage text) → Served env w auth data (i + j) text) →
      (handleEvents env w reply i events calls printed).2.1
          = printed ++ (events.enumFrom i).flatMap
              (fun p => expectedPrinted reply data p.1 p.2) := by
  induction events with
  | nil => intro i calls printed _; simp [handleEvents]
  | cons event events ih =>
    intro i calls printed h
    have htail : ∀ j ev text, events[j]? = some ev → ev.Type_ = EventTypeMessage →
        ev.Message = some (.TextMessage text) → Served env w auth data (i + 1 + j) text := by
      intro j ev text hj ht hm
      have := h (j + 1) ev text (by simpa using hj) ht hm
      rwa [show i + (j + 1) = i + 1 + j by omega] at this
    by_cases hty : event.Type_ = EventTypeMessage
    · cases hmsg : event.Message with
      | none =>
        have hexp : expectedPrinted reply data i event = [] := by
          simp [expectedPrinted, isTextMessageEvent, hmsg]
        have := ih (i + 1) calls printed htail
        simp only [handleEvents, hty, hmsg, if_true, List.enumFrom_cons, List.flatMap_cons, hexp]
        simpa using this
      | some m =>
        cases m with
        | other =>
          have hexp : expectedPrinted reply data i event = [] := by
            simp [expectedPrinted, isTextMessageEvent, hmsg]
          have := ih (i + 1) calls printed htail
          simp only [handleEvents, hty, hmsg, if_true, List.enumFrom_cons, List.flatMap_cons,
            hexp]
          simpa using this
        | TextMessage text =>
          have hs := h 0 event text (by simp) hty hmsg
          have hg := getParsedWords_served env w auth data i text calls hs
          cases hr : reply i event.ReplyToken (getParsedWordsFilter (data i)) with
          | none =>
            have hexp : expectedPrinted reply data i event = [] := by
              simp [expectedPrinted, isTextMessageEvent, hmsg, hty, hr]
            have := ih (i + 1)
              (calls ++ [Call.tokenFetch (env "COTOHA_CLIENT_ID") (env "COTOHA_CLIENT_SERCRET"),
                Call.parseRequest text (auth i).AccessToken]
                ++ [Call.reply event.ReplyToken (getParsedWordsFilter (data i))]) printed htail
            simp only [handleEvents, hty, hmsg, if_true, hg, hr, List.enumFrom_cons,
              List.flatMap_cons, hexp]
            simpa using this
          | some err =>
            have hexp : expectedPrinted reply data i event = [err] := by
              simp [expectedPrinted, isTextMessageEvent, hmsg, hty, hr]
            have := ih (i + 1)
              (calls ++ [Call.tokenFetch (env "COTOHA_CLIENT_ID") (env "COTOHA_CLIENT_SERCRET"),
                Call.parseRequest text (auth i).AccessToken]
                ++ [Call.reply event.ReplyToken (getParsedWordsFilter (data i))])
              (printed ++ [err]) htail
            simp only [handleEvents, hty, hmsg, if_true, hg, hr, List.enumFrom_cons,
              List.flatMap_cons, hexp]
            simpa using this
    · have hexp : expectedPrinted reply data i event = [] := by
        simp [expectedPrinted, isTextMessageEvent, hty]
      have := ih (i + 1) calls printed htail
      simp only [handleEvents, hty, if_false, List.enumFrom_cons, List.flatMap_cons, hexp]
      simpa using this

/-! ## Theorems on the filter -/

/-- C1: the string built by the filter is the readings of exactly the tokens
whose tag is none of the five excluded literals, group by group and token by
token in the original order, joined with the separator "..". -/
theorem getParsedWordsFilter_spec (data : NlpResponse) :
    getParsedWordsFilter data
      = String.intercalate ".."
          (((data.Result.flatMap (fun g => g.Tokens)).filter
              (fun t => decide (t.Pos ≠ "格助詞" ∧ t.Pos ≠ "連用助詞" ∧ t.Pos ≠ "引用助詞"
                ∧ t.Pos ≠ "終助詞" ∧ t.Pos ≠ "判定詞"))).map (fun t => t.Kana)) := by
  unfold getParsedWordsFilter
  rw [Join_eq_intercalate, collectParsedWords_eq]
  unfold survivingReadings survivors allTokens
  congr 3
  funext t
  simp [excludedPos]

/-- C3: when every token of every group carries one of the five excluded tags
(in particular when there is no group, or no token in any group), the filtered
reply is the empty string. -/
theorem getParsedWordsFilter_empty (data : NlpResponse)
    (h : ∀ g ∈ data.Result, ∀ t ∈ g.Tokens,
      t.Pos = "格助詞" ∨ t.Pos = "連用助詞" ∨ t.Pos = "引用助詞"
        ∨ t.Pos = "終助詞" ∨ t.Pos = "判定詞") :
    getParsedWordsFilter data = "" := by
  unfold getParsedWordsFilter
  rw [collectParsedWords_eq]
  have hnil : survivingReadings data = [] := by
    unfold survivingReadings survivors allTokens
    rw [List.map_eq_nil_iff, List.filter_eq_nil_iff]
    intro t ht
    obtain ⟨g, hg, htg⟩ := List.mem_flatMap.1 ht
    have hmem : t.Pos ∈ excludedPos := by
      simp only [excludedPos, List.mem_cons, List.mem_singleton, List.not_mem_nil, or_false]
      exact h g hg t htg
    simp [hmem]
  rw [hnil]
  rfl

theorem getParsedWordsFilter_empty_witness :
    getParsedWordsFilter ⟨[⟨[]⟩, ⟨[⟨"ガ", "格助詞"⟩, ⟨"ダ", "判定詞"⟩]⟩], "", ""⟩ = "" :=
  getParsedWordsFilter_empty _ (by
    intro g hg t ht
    simp at hg
    rcases hg with rfl | rfl
    · simp at ht
    · simp at ht
      rcases ht with rfl | rfl <;> simp)

/-- C4: for the tokens (ネコ, 名詞), (ガ, 格助詞), (ナク, 動詞) the filtered
reply is exactly "ネコ..ナク". -/
theorem getParsedWordsFilter_scenario1 :
    getParsedWordsFilter
        ⟨[⟨[⟨"ネコ", "名詞"⟩, ⟨"ガ", "格助詞"⟩, ⟨"ナク", "動詞"⟩]⟩], "", ""⟩
      = "ネコ..ナク" := by
  decide

/-- C9: the filtered reply is a function of the result groups alone: two
decoded responses with the same groups, whatever their status and message
fields, give the identical string (in particular the same response filtered
twice gives the same string). -/
theorem getParsedWordsFilter_deterministic (d₁ d₂ : NlpResponse)
    (h : d₁.Result = d₂.Result) :
    getParsedWordsFilter d₁ = getParsedWordsFilter d₂ := by
  unfold getParsedWordsFilter collectParsedWords
  rw [h]

theorem getParsedWordsFilter_deterministic_witness :
    getParsedWordsFilter ⟨[⟨[⟨"ネコ", "名詞"⟩]⟩], "0", "OK"⟩
      = getParsedWordsFilter ⟨[⟨[⟨"ネコ", "名詞"⟩]⟩], "429", "Too Many Requests"⟩ :=
  getParsedWordsFilter_deterministic _ _ rfl

/-- C2 (as amended): when every surviving reading is non-empty and contains no
'.', the reply of n surviving tokens contains exactly n - 1 occurrences of
"..", counted with or without overlaps, and neither starts nor ends with "..". -/
theorem getParsedWordsFilter_delimiters (data : NlpResponse)
    (h : ∀ r ∈ survivingReadings data, r ≠ "" ∧ '.' ∉ r.data) :
    countSep (getParsedWordsFilter data).data = (survivingReadings data).length - 1
      ∧ countSepPositions (getParsedWordsFilter data).data
          = (survivingReadings data).length - 1
      ∧ ¬ ("..".data <+: (getParsedWordsFilter data).data)
      ∧ ¬ ("..".data <:+ (getParsedWordsFilter data).data) := by
  cases hs : survivingReadings data with
  | nil =>
    rw [getParsedWordsFilter_data_nil data hs]
    refine ⟨rfl, rfl, ?_, ?_⟩
    · rintro ⟨t, ht⟩
      exact absurd (congrArg List.length ht) (by simp)
    · rintro ⟨t, ht⟩
      exact absurd (congrArg List.length ht) (by simp)
  | cons e rest =>
    rw [hs] at h
    have he := h e (List.mem_cons_self _ _)
    have he2 : e.data ≠ [] := data_ne_nil_of_ne_empty e he.1
    have hrest : ∀ r ∈ rest.map String.data, r ≠ [] ∧ '.' ∉ r := by
      intro r hr
      obtain ⟨s, hs1, rfl⟩ := List.mem_map.1 hr
      have := h s (List.mem_cons_of_mem _ hs1)
      exact ⟨data_ne_nil_of_ne_empty s this.1, this.2⟩
    rw [getParsedWordsFilter_data_cons data e rest hs]
    refine ⟨?_, ?_, ?_, ?_⟩
    · rw [countSep_joined _ _ he.2 (fun r hr => (hrest r hr).2)]
      simp
    · rw [countSepPositions_joined _ _ he.2 hrest]
      simp
    · exact not_starts_with_sep _ _ he2 he.2
    · obtain ⟨front, s, hfs, hne, hdot⟩ :=
        joined_ends_with_reading e.data (rest.map String.data) ⟨he2, he.2⟩ hrest
      rw [hfs]
      exact not_ends_with_sep front s hne hdot

theorem getParsedWordsFilter_delimiters_witness :
    countSep (getParsedWordsFilter nekoParse).data = (survivingReadings nekoParse).length - 1
      ∧ countSepPositions (getParsedWordsFilter nekoParse).data
          = (survivingReadings nekoParse).length - 1
      ∧ ¬ ("..".data <+: (getParsedWordsFilter nekoParse).data)
      ∧ ¬ ("..".data <:+ (getParsedWordsFilter nekoParse).data) :=
  getParsedWordsFilter_delimiters nekoParse (by decide)

/-- C2 (as stated) fails: a single surviving token with the reading ".." gives
the reply "..", which has one occurrence of ".." where none is allowed and
starts and ends with it; and a last surviving token with the empty reading
gives a reply that ends with "..". -/
theorem getParsedWordsFilter_delimiters_counterexample :
    ((survivingReadings dotReading).length = 1
        ∧ getParsedWordsFilter dotReading = ".."
        ∧ countSep (getParsedWordsFilter dotReading).data = 1
        ∧ countSepPositions (getParsedWordsFilter dotReading).data = 1
        ∧ "..".data <+: (getParsedWordsFilter dotReading).data
        ∧ "..".data <:+ (getParsedWordsFilter dotReading).data)
      ∧ ((survivingReadings emptyReading).length = 2
        ∧ getParsedWordsFilter emptyReading = "ネコ.."
        ∧ "..".data <:+ (getParsedWordsFilter emptyReading).data) := by
  decide

/-- C10: when at least one token survives and no surviving reading contains
the character '.', splitting the filtered reply on ".." yields exactly the
list of surviving readings, in order. -/
theorem Split_getParsedWordsFilter (data : NlpResponse)
    (hne : survivingReadings data ≠ [])
    (hdot : ∀ r ∈ survivingReadings data, '.' ∉ r.data) :
    Split (getParsedWordsFilter data) = survivingReadings data := by
  cases hs : survivingReadings data with
  | nil => exact absurd hs hne
  | cons e rest =>
    rw [hs] at hdot
    unfold Split
    rw [getParsedWordsFilter_data_cons data e rest hs,
      splitSep_joined _ _ (hdot e (List.mem_cons_self _ _))]
    · have hid : String.mk ∘ String.data = id := by
        funext s
        rfl
      simp [hid]
    · intro r hr
      obtain ⟨s, hs1, rfl⟩ := List.mem_map.1 hr
      exact hdot s (List.mem_cons_of_mem _ hs1)

theorem Split_getParsedWordsFilter_witness :
    survivingReadings emptyBetween = ["ネコ", "", "ナク"]
      ∧ Split (getParsedWordsFilter emptyBetween) = survivingReadings emptyBetween :=
  ⟨by decide, Split_getParsedWordsFilter emptyBetween (by decide) (by decide)⟩

/-! ## Theorems on the handler -/

/-- C5 (as amended): the response status is 400 when validation fails with the
invalid-signature error and 500 when it fails with any other error, in both
cases without any outbound call and without anything printed; it is 200 when
validation succeeds and every token fetch and parse request made for the
text messages of the batch succeeds. -/
theorem callback_status (env : String → String) (w : Services) (reply : ReplyService) :
    callback env w reply (.error ParseRequestError.ErrInvalidSignature)
        = ⟨[], [], .ret 400⟩
      ∧ (∀ msg, callback env w reply (.error (ParseRequestError.other msg))
          = ⟨[], [], .ret 500⟩)
      ∧ ∀ events auth data, UpstreamServes env w auth data events →
          (callback env w reply (.ok events)).outcome = .ret 200 := by
  refine ⟨rfl, fun _ => rfl, ?_⟩
  intro events auth data h
  have hs := (handleEvents_served env w reply auth data events 0 [] []
    (fun j event text hj ht hm => by simpa using h j event text hj ht hm)).2
  unfold callback
  simp only
  rcases hh : handleEvents env w reply 0 events [] [] with ⟨c, p, o⟩
  rw [hh] at hs
  simp only at hs
  subst hs
  rfl

theorem callback_status_witness :
    UpstreamServes exampleEnv servicesUp (fun _ => exampleAuth) (fun _ => nekoParse)
        exampleBatch
      ∧ (callback exampleEnv servicesUp repliesFail (.ok exampleBatch)).outcome = .ret 200 :=
  ⟨servicesUp_serves exampleBatch,
    (callback_status exampleEnv servicesUp repliesFail).2.2 exampleBatch
      (fun _ => exampleAuth) (fun _ => nekoParse) (servicesUp_serves exampleBatch)⟩

/-- C5 (as stated) fails: validation succeeds, the batch holds one text
message, the token endpoint cannot be reached, and the process ends on
`log.Fatal` after the token fetch, with no status 200. -/
theorem callback_status_counterexample :
    callback exampleEnv servicesTokenDown repliesDelivered
        (.ok [⟨"message", "r1", some (.TextMessage "猫が鳴く")⟩])
      = ⟨[Call.tokenFetch "id" "secret"], [], Outcome.fatal⟩ := by
  decide

/-- C6 (as amended): when every token fetch and parse request made for the
text messages of a validated batch succeeds, the calls attempted are, event by
event in batch order, the token fetch, the parse request and one reply with
the event's reply token and the filtered string of the parse of its text, for
each message event carrying a text message, and nothing for any other event;
the replies carry the reply tokens of exactly the text-message events, in
order; and the response has status 200. -/
theorem callback_replies (env : String → String) (w : Services) (reply : ReplyService)
    (events : List Event) (auth : Nat → AuthResponse) (data : Nat → NlpResponse)
    (h : UpstreamServes env w auth data events) :
    (callback env w reply (.ok events)).calls
        = events.enum.flatMap (fun p => expectedCalls env auth data p.1 p.2)
      ∧ replyTokens (callback env w reply (.ok events)).calls
        = (events.filter isTextMessageEvent).map (fun event => event.ReplyToken)
      ∧ (callback env w reply (.ok events)).outcome = .ret 200 := by
  have hs := handleEvents_served env w reply auth data events 0 [] []
    (fun j event text hj ht hm => by simpa using h j event text hj ht hm)
  have hc : (callback env w reply (.ok events)).calls
      = events.enum.flatMap (fun p => expectedCalls env auth data p.1 p.2)
      ∧ (callback env w reply (.ok events)).outcome = .ret 200 := by
    unfold callback
    simp only
    rcases hh : handleEvents env w reply 0 events [] [] with ⟨c, p, o⟩
    rw [hh] at hs
    simp only [List.nil_append] at hs
    obtain ⟨h1, h2⟩ := hs
    subst h1 h2
    exact ⟨rfl, rfl⟩
  refine ⟨hc.1, ?_, hc.2⟩
  rw [hc.1]
  exact replyTokens_expectedCalls env auth data events 0

theorem callback_replies_witness :
    (callback exampleEnv servicesUp repliesFail (.ok exampleBatch)).calls
        = [Call.tokenFetch "id" "secret", Call.parseRequest "猫が鳴く" "tok",
            Call.reply "r1" "ネコ..ナク"]
      ∧ replyTokens (callback exampleEnv servicesUp repliesFail (.ok exampleBatch)).calls
        = ["r1"]
      ∧ (callback exampleEnv servicesUp repliesFail (.ok exampleBatch)).outcome = .ret 200 :=
  callback_replies exampleEnv servicesUp repliesFail exampleBatch
    (fun _ => exampleAuth) (fun _ => nekoParse) (servicesUp_serves exampleBatch)

/-- C6 (as stated) fails: validation succeeds, the batch holds two text
messages, the parse endpoint answers the first with an undecodable body, and
the process ends on `log.Fatal` with no reply attempted for either. -/
theorem callback_replies_counterexample :
    (twoTexts.filter isTextMessageEvent).length = 2
      ∧ callback exampleEnv servicesParseGarbled repliesDelivered (.ok twoTexts)
        = ⟨[Call.tokenFetch "id" "secret", Call.parseRequest "猫が鳴く" "tok"], [],
            Outcome.fatal⟩
      ∧ replyTokens
          (callback exampleEnv servicesParseGarbled repliesDelivered (.ok twoTexts)).calls
        = [] := by
  decide

/-- C8: a failed reply is only logged.  Whatever the outcomes of the replies,
the outbound calls the handler attempts (token fetches, parse requests and
replies, with their arguments and in their order) and the way it ends (the
response status) are the same as for any other pattern of outcomes, in
particular as if every reply had succeeded.  What is printed is exactly the
errors of the failed ones among the replies attempted, once each and in order.
When the token fetches and parse requests of the batch succeed, every
text-message event gets its token fetch, parse request and reply whether or
not earlier replies failed, the log holds the error of each failed reply, and
the status is 200. -/
theorem callback_reply_failures (env : String → String) (w : Services)
    (r₁ r₂ : ReplyService) (parsed : Except ParseRequestError (List Event)) :
    (callback env w r₁ parsed).calls = (callback env w r₂ parsed).calls
      ∧ (callback env w r₁ parsed).outcome = (callback env w r₂ parsed).outcome
      ∧ (∀ events, (callback env w r₁ (.ok events)).printed
          = failedReplies r₁ events (callback env w r₁ (.ok events)).calls)
      ∧ ∀ events auth data, UpstreamServes env w auth data events →
          (callback env w r₁ (.ok events)).calls
              = events.enum.flatMap (fun p => expectedCalls env auth data p.1 p.2)
            ∧ (callback env w r₁ (.ok events)).printed
              = events.enum.flatMap (fun p => expectedPrinted r₁ data p.1 p.2)
            ∧ (callback env w r₁ (.ok events)).outcome = .ret 200 := by
  have hsame : (callback env w r₁ parsed).calls = (callback env w r₂ parsed).calls
      ∧ (callback env w r₁ parsed).outcome = (callback env w r₂ parsed).outcome := by
    cases parsed with
    | error err => exact ⟨rfl, rfl⟩
    | ok events =>
      have h := handleEvents_reply_irrelevant env w r₁ r₂ events 0 [] [] []
      unfold callback
      simp only
      rcases h₁ : handleEvents env w r₁ 0 events [] [] with ⟨c₁, p₁, o₁⟩
      rcases h₂ : handleEvents env w r₂ 0 events [] [] with ⟨c₂, p₂, o₂⟩
      rw [h₁, h₂] at h
      simp only at h
      obtain ⟨hc, ho⟩ := h
      subst hc ho
      cases o₁ <;> exact ⟨rfl, rfl⟩
  refine ⟨hsame.1, hsame.2, ?_, ?_⟩
  · intro events
    obtain ⟨new, h1, h2⟩ := handleEvents_printed env w r₁ events 0 [] []
    unfold callback failedReplies textPositions List.enum
    simp only
    rcases hh : handleEvents env w r₁ 0 events [] [] with ⟨c, p, o⟩
    rw [hh] at h1 h2
    simp only [List.nil_append] at h1 h2
    subst h1 h2
    cases o <;> rfl
  · intro events auth data h
    have hs := handleEvents_served env w r₁ auth data events 0 [] []
      (fun j event text hj ht hm => by simpa using h j event text hj ht hm)
    have hp := handleEvents_served_printed env w r₁ auth data events 0 [] []
      (fun j event text hj ht hm => by simpa using h j event text hj ht hm)
    unfold callback List.enum
    simp only
    rcases hh : handleEvents env w r₁ 0 events [] [] with ⟨c, p, o⟩
    rw [hh] at hs hp
    simp only [List.nil_append] at hs hp
    obtain ⟨h1, h2⟩ := hs
    subst h1 h2 hp
    exact ⟨rfl, rfl, rfl⟩

theorem callback_reply_failures_witness :
    UpstreamServes exampleEnv servicesUp (fun _ => exampleAuth) (fun _ => nekoParse) twoTexts
      ∧ (callback exampleEnv servicesUp firstReplyFails (.ok twoTexts)).calls
        = [Call.tokenFetch "id" "secret", Call.parseRequest "猫が鳴く" "tok",
            Call.reply "r1" "ネコ..ナク", Call.tokenFetch "id" "secret",
            Call.parseRequest "犬が吠える" "tok", Call.reply "r2" "ネコ..ナク"]
      ∧ (callback exampleEnv servicesUp firstReplyFails (.ok twoTexts)).printed
        = ["invalid reply token"]
      ∧ (callback exampleEnv servicesUp firstReplyFails (.ok twoTexts)).outcome = .ret 200 :=
  ⟨servicesUp_serves twoTexts,
    (callback_reply_failures exampleEnv servicesUp firstReplyFails repliesDelivered
      (.ok twoTexts)).2.2.2 twoTexts (fun _ => exampleAuth) (fun _ => nekoParse)
      (servicesUp_serves twoTexts)⟩

/-- C7 (as amended): getAccessToken is fatal on a transport failure and on a
body that does not decode; for every response whose body decodes, whatever its
status code, it returns the access-token field of the decoded body. -/
theorem getAccessToken_result (w : Services) (i : Nat) (clientID clientSecret : String)
    (calls : List Call) :
    (∀ e, w.tokenEndpoint i clientID clientSecret = .error e →
        (getAccessToken w i clientID clientSecret calls).2 = .fatal)
      ∧ (∀ s, w.tokenEndpoint i clientID clientSecret = .ok ⟨s, none⟩ →
        (getAccessToken w i clientID clientSecret calls).2 = .fatal)
      ∧ ∀ s auth, w.tokenEndpoint i clientID clientSecret = .ok ⟨s, some auth⟩ →
        (getAccessToken w i clientID clientSecret calls).2 = .ret auth.AccessToken := by
  refine ⟨?_, ?_, ?_⟩
  · intro e h; simp [getAccessToken, h]
  · intro s h; simp [getAccessToken, h]
  · intro s auth h; simp [getAccessToken, h]


theorem getAccessToken_result_witness :
    (getAccessToken servicesTokenDown 0 "id" "secret" []).2 = Outcome.fatal
      ∧ (getAccessToken servicesParseGarbled 0 "id" "secret" []).2 = Outcome.ret "tok" :=
  ⟨(getAccessToken_result servicesTokenDown 0 "id" "secret" []).1 "connection refused" rfl,
    (getAccessToken_result servicesParseGarbled 0 "id" "secret" []).2.2 201 exampleAuth rfl⟩

/-- C7 (as stated) fails: the token endpoint answers with status 401 and a
body that decodes, and getAccessToken returns the (empty) token instead of
aborting. -/
theorem getAccessToken_counterexample :
    getAccessToken servicesTokenDenied 0 "id" "secret" []
      = ([Call.tokenFetch "id" "secret"], Outcome.ret "") := by
  decide

end GenshijinBot
